import Mathlib

/-!
Verification of the overlap-discovery and crop engine of `ros2bag_tools`
(`ros2bag_tools/verb/overlap.py`).  The Python code is shallowly embedded:
timestamps are integer nanoseconds (`Int`), the filesystem is an explicit
tree value, reader/writer effects become lists of events, and `datetime.now`
becomes explicit clock parameters.  Every definition mirrors the control
flow of the corresponding Python function.
-/

namespace Ros2bagTools

/-- A time range of one bag: `(start, end)` timestamps.  Mirrors the
`(start, end, bag_path)` tuples built in `_find_overlap` and `_crop_bags`,
with the path dropped where it plays no role. -/
abbrev TimeRange := Int × Int

/-- The overlap computation of `_find_overlap` (overlap.py lines 94-95) and
`_crop_bags` (lines 145-146):
`overlap_start = max(start for start, _, _ in time_ranges)` and
`overlap_end = min(end for _, end, _ in time_ranges)`.
Python's `max`/`min` over a sequence fold the binary operation from the
left, so the embedding folds over the tail starting from the head range;
nonemptiness of the input is expressed by the explicit head `r`. -/
def overlapWindow (r : TimeRange) (rs : List TimeRange) : TimeRange :=
  rs.foldl (fun acc p => (max acc.1 p.1, min acc.2 p.2)) r

/-- Python's `str.endswith`, embedded on the character list of the string. -/
def hasSuffix (s suffix : String) : Bool :=
  suffix.data.isSuffixOf s.data

/-- One record as yielded by `reader.read_next()` in `_crop_bag`
(line 379): topic name, serialized payload (abstracted to an identifier),
and a timestamp `t` already in nanoseconds. -/
structure Record where
  topic : String
  data : Nat
  t : Int
deriving DecidableEq

/-- One effect on the output bag performed by `_crop_bag`: either
`writer.create_topic(topic)` (line 373) or `writer.write(topic, data, t)`
(line 382). -/
inductive WriteEvent where
  | createTopic (name : String)
  | write (topic : String) (data : Nat) (t : Int)
deriving DecidableEq

/-- The message-copy loop of `_crop_bag` (lines 378-390): records are read
one at a time in source stream order, and a record is written iff
`overlap_start.timestamp() * 1e9 <= t <= overlap_end.timestamp() * 1e9`
(both bounds inclusive); otherwise it is skipped.  The nanosecond window
bounds (the two products) are passed in as `wsNs` and `weNs`. -/
def copyMessages (wsNs weNs : Int) : List Record → List WriteEvent
  | [] => []
  | m :: ms =>
    if wsNs ≤ m.t ∧ m.t ≤ weNs then
      WriteEvent.write m.topic m.data m.t :: copyMessages wsNs weNs ms
    else
      copyMessages wsNs weNs ms

/-- The filtered-rewrite path of `_crop_bag` (lines 349-391): after opening
the writer, every topic returned by `reader.get_all_topics_and_types()` is
created (lines 372-373) before the message loop runs (lines 378-390). -/
def cropBagFilteredEvents (wsNs weNs : Int) (topics : List String)
    (msgs : List Record) : List WriteEvent :=
  topics.map WriteEvent.createTopic ++ copyMessages wsNs weNs msgs

/-- Which of the two crop strategies `_crop_bag` takes for one bag. -/
inductive CropAction where
  | fullCopy
  | filteredRewrite
deriving DecidableEq

/-- The containment check of `_crop_bag` (lines 337-347): with all four
timestamps converted to nanoseconds (`.timestamp() * 1e9`), the whole bag
directory is copied via `shutil.copytree` iff
`overlap_start <= bag_start + 10 and bag_end - 10 <= overlap_end`;
otherwise the filtered rewrite runs. -/
def cropBagAction (overlapStartNs overlapEndNs bagStartNs bagEndNs : Int) :
    CropAction :=
  if overlapStartNs ≤ bagStartNs + 10 ∧ bagEndNs - 10 ≤ overlapEndNs then
    CropAction.fullCopy
  else
    CropAction.filteredRewrite

/-- Outcome of the overlap gate in `_crop_bags` (lines 145-154). -/
inductive CropBatchGate where
  | refuse
  | proceed (window : TimeRange)
deriving DecidableEq

/-- The overlap gate of `_crop_bags` (lines 145-154): the window is
computed exactly as in `_find_overlap`; if `overlap_start >= overlap_end`
the function prints an error and returns exit code 1 before
`os.makedirs(output_dir)` runs, so no output directory is created;
otherwise cropping proceeds with that window. -/
def cropBagsGate (r : TimeRange) (rs : List TimeRange) : CropBatchGate :=
  let w := overlapWindow r rs
  if w.2 ≤ w.1 then CropBatchGate.refuse else CropBatchGate.proceed w

/-- The batch result of `_crop_bags` (lines 156-165): each bag yields
`true` when `_crop_bag` returned `True`, and `false` when it returned
`False` or raised (the exception is caught and only printed).
`success_count` is the number of `true` entries and the function returns
`0 if success_count > 0 else 1`. -/
def cropBatchExitCode (results : List Bool) : Nat :=
  if results.count true > 0 then 0 else 1

/-- The state of a bag's `metadata.yaml` as observed by
`_get_start_end_timestamps`: the file may be absent, `yaml.safe_load` may
return `None` (empty/invalid), parsing may raise
(`yaml.YAMLError`/`KeyError`/`TypeError`/`FileNotFoundError`), or it
parses to a mapping in which `starting_time.nanoseconds_since_epoch`
and `duration.nanoseconds` are each present or missing. -/
inductive MetadataState where
  | absent
  | empty
  | malformed
  | parsed (startNs : Option Int) (durationNs : Option Int)
deriving DecidableEq

/-- How `_get_start_end_timestamps` resolves one bag's time range. -/
inductive ResolveOutcome where
  | fromMetadata (startNs endNs : Int)
  | fromReader
  | failure
deriving DecidableEq

/-- `_get_start_end_timestamps` (overlap.py lines 167-208).  For a
directory bag, a missing `metadata.yaml` raises `ValueError` (lines
171-174); for a single-file bag, a missing `metadata.yaml` in the parent
directory falls back to `_get_timestamps_using_reader` (lines 176-181).
An empty (`None`) or unparsable descriptor falls back to the reader
(lines 189-191, 206-208).  A descriptor that parses uses
`info.get('starting_time', {}).get('nanoseconds_since_epoch', 0)` and
`info.get('duration', {}).get('nanoseconds', 0)`: missing fields default
to 0 and `end = start + duration` (lines 193-204).  The nanosecond pair is
returned (the final conversion to `datetime` does not change which path
was taken). -/
def getStartEndTimestamps (isDir : Bool) (meta : MetadataState) :
    ResolveOutcome :=
  match meta with
  | MetadataState.absent =>
    if isDir then ResolveOutcome.failure else ResolveOutcome.fromReader
  | MetadataState.empty => ResolveOutcome.fromReader
  | MetadataState.malformed => ResolveOutcome.fromReader
  | MetadataState.parsed s d =>
    ResolveOutcome.fromMetadata (s.getD 0) (s.getD 0 + d.getD 0)

/-- One storage file inside a bag directory, as seen by
`_get_timestamps_using_reader`: its file name and the
`starting_time.nanoseconds` and `duration.nanoseconds` reported by
`reader.get_metadata()` when that file is opened. -/
structure StorageFile where
  name : String
  startNs : Int
  durationNs : Int
deriving DecidableEq

/-- Which files `_get_timestamps_using_reader` opens for a directory bag. -/
inductive ReaderSelection where
  | sqlite (file : StorageFile)
  | mcap (files : List StorageFile)
  | invalid
deriving DecidableEq

/-- The file selection of `_get_timestamps_using_reader` for a directory
bag (lines 216-227): if any `.db3` file exists, storage is `sqlite3` and
only the first `.db3` file is opened; otherwise, if any `.mcap` file
exists, storage is `mcap` and every `.mcap` file is opened; otherwise a
`ValueError` is raised. -/
def selectReaderFiles (files : List StorageFile) : ReaderSelection :=
  let db3Files := files.filter (fun f => hasSuffix f.name ".db3")
  let mcapFiles := files.filter (fun f => hasSuffix f.name ".mcap")
  match db3Files with
  | f :: _ => ReaderSelection.sqlite f
  | [] =>
    match mcapFiles with
    | [] => ReaderSelection.invalid
    | m :: ms => ReaderSelection.mcap (m :: ms)

/-- The accumulator loop of `_get_timestamps_using_reader` (lines 232-251):
`start_ns = min(start_ns, file_start)` and
`end_ns = max(end_ns, file_start + file_duration)` over the opened files. -/
def readerFold (acc : Int × Int) (fs : List StorageFile) : Int × Int :=
  fs.foldl
    (fun a g => (min a.1 g.startNs, max a.2 (g.startNs + g.durationNs))) acc

/-- The `(start_ns, end_ns)` pair computed by
`_get_timestamps_using_reader` over a nonempty file list.  The Python loop
starts from `(float('inf'), float('-inf'))`; on a nonempty list the first
iteration absorbs both infinities, so the embedding starts the fold from
the first file's values. -/
def readerTimeRangeFromFiles (f : StorageFile) (fs : List StorageFile) :
    Int × Int :=
  readerFold (f.startNs, f.startNs + f.durationNs) fs

/-- A directory of the filesystem as observed by `os.listdir` /
`os.path.isdir` in `_get_all_bag_files`: its path, whether it contains a
`metadata.yaml`, the names of its plain files, and its subdirectories
(entries that are not directories are only ever tested for suffixes, so
they are kept as names). -/
inductive FsDir where
  | node (path : String) (hasMetadataYaml : Bool) (fileNames : List String)
      (subdirs : List FsDir)

/-- The path of a directory. -/
def FsDir.path : FsDir → String
  | FsDir.node p _ _ _ => p

/-- The immediate subdirectories of a directory. -/
def FsDir.subdirs : FsDir → List FsDir
  | FsDir.node _ _ _ s => s

/-- `is_bag_directory` (overlap.py lines 263-271): a directory is a valid
bag iff it contains a `metadata.yaml` and at least one file ending in
`.db3` or `.mcap`. -/
def isBagDirectory : FsDir → Bool
  | FsDir.node _ meta files _ =>
    meta && (files.any (fun f => hasSuffix f ".db3")
      || files.any (fun f => hasSuffix f ".mcap"))

mutual

/-- `find_bag_files_recursively` (overlap.py lines 273-285): append the
path if it validates as a bag; otherwise recurse into each immediate
subdirectory with `n - 1`, returning immediately when `n < 0`.  The
Python function appends to a shared list; the embedding returns the
paths this call contributes, in append order. -/
def findBagFilesRecursively (t : FsDir) (n : Int) : List String :=
  if n < 0 then []
  else if isBagDirectory t then [t.path]
  else
    match t with
    | FsDir.node _ _ _ subs => findBagFilesInSubdirs subs n

/-- The `for item in os.listdir(path)` loop of `find_bag_files_recursively`
(lines 280-285): non-directories are skipped (the embedding keeps only
directories in `subdirs`), and each subdirectory is visited with `n - 1`. -/
def findBagFilesInSubdirs (ts : List FsDir) (n : Int) : List String :=
  match ts with
  | [] => []
  | c :: cs => findBagFilesRecursively c (n - 1) ++ findBagFilesInSubdirs cs n

end

/-- `_get_all_bag_files` (overlap.py lines 259-296): each existing input
path is searched with `find_bag_files_recursively(path, n=1)`, appending
to one shared list in input order.  No deduplication is performed. -/
def getAllBagFiles : List FsDir → List String
  | [] => []
  | t :: ts => findBagFilesRecursively t 1 ++ getAllBagFiles ts

/-- What `_find_overlap` produces: the `(start, end)` window printed in
the "Temporal Overlap Summary" and the process exit code. -/
structure ReportResult where
  window : TimeRange
  exitCode : Nat
deriving DecidableEq

/-- The tail of `_find_overlap` (overlap.py lines 94-117) once the ranges
are resolved: the window is the max-start/min-end fold; if
`overlap_start > overlap_end` a warning is printed and the window is
replaced by two successive `datetime.now()` readings (`now1` for the
start, `now2` for the end); the function then prints the summary and
returns 0 in every case. -/
def findOverlapReport (r : TimeRange) (rs : List TimeRange)
    (now1 now2 : Int) : ReportResult :=
  let w := overlapWindow r rs
  if w.1 > w.2 then { window := (now1, now2), exitCode := 0 }
  else { window := w, exitCode := 0 }

/-- Test fixture for the filtered rewrite: one topic with records at
0, 50, 100, 150 and 200 ns (the synthetic bag of the spec). -/
def cropExampleRecords : List Record :=
  [⟨"t1", 0, 0⟩, ⟨"t1", 1, 50⟩, ⟨"t1", 2, 100⟩, ⟨"t1", 3, 150⟩,
   ⟨"t1", 4, 200⟩]

/-- Test fixture for discovery: a non-bag root containing a bag directly
and a non-bag subdirectory that hides a bag two levels below the root. -/
def discoveryExampleRoot : FsDir :=
  FsDir.node "root" false []
    [FsDir.node "root/a" true ["data.db3"] [],
     FsDir.node "root/s" false []
       [FsDir.node "root/s/b" true ["data.db3"] []]]

/-- Test fixture for discovery duplication: a single valid bag directory. -/
def duplicateExampleBag : FsDir :=
  FsDir.node "a" true ["data.db3"] []

/-- Test fixture for the reader fallback: a bag directory holding two
`.mcap` segment files with distinct time spans. -/
def mcapFileA : StorageFile := ⟨"seg0.mcap", 10, 5⟩

/-- Second segment of the reader-fallback fixture. -/
def mcapFileB : StorageFile := ⟨"seg1.mcap", 2, 3⟩

lemma overlapWindow_cons (r q : TimeRange) (qs : List TimeRange) :
    overlapWindow r (q :: qs) = overlapWindow (max r.1 q.1, min r.2 q.2) qs := rfl

lemma overlapWindow_fst_le (r : TimeRange) (rs : List TimeRange) :
    r.1 ≤ (overlapWindow r rs).1 ∧ (overlapWindow r rs).2 ≤ r.2 := by
  induction rs generalizing r with
  | nil => exact ⟨le_refl _, le_refl _⟩
  | cons p ps ih =>
    have h := ih (max r.1 p.1, min r.2 p.2)
    exact ⟨le_trans (le_max_left _ _) h.1, le_trans h.2 (min_le_left _ _)⟩

lemma overlapWindow_mem_bound (r : TimeRange) (rs : List TimeRange) :
    ∀ p ∈ rs, p.1 ≤ (overlapWindow r rs).1 ∧ (overlapWindow r rs).2 ≤ p.2 := by
  induction rs generalizing r with
  | nil => intro p hp; cases hp
  | cons q qs ih =>
    intro p hp
    rcases List.mem_cons.mp hp with hq | hqs
    · subst hq
      have h := overlapWindow_fst_le (max r.1 p.1, min r.2 p.2) qs
      exact ⟨le_trans (le_max_right _ _) h.1, le_trans h.2 (min_le_right _ _)⟩
    · exact ih (max r.1 q.1, min r.2 q.2) p hqs

lemma overlapWindow_attained (r : TimeRange) (rs : List TimeRange) :
    (∃ p ∈ r :: rs, p.1 = (overlapWindow r rs).1) ∧
    (∃ p ∈ r :: rs, p.2 = (overlapWindow r rs).2) := by
  induction rs generalizing r with
  | nil => exact ⟨⟨r, List.mem_cons_self _ _, rfl⟩, ⟨r, List.mem_cons_self _ _, rfl⟩⟩
  | cons q qs ih =>
    have h := ih (max r.1 q.1, min r.2 q.2)
    constructor
    · rcases h.1 with ⟨p, hp, hval⟩
      rcases List.mem_cons.mp hp with hhd | htl
      · subst hhd
        rcases max_choice r.1 q.1 with hm | hm
        · exact ⟨r, List.mem_cons_self _ _,
            by rw [overlapWindow_cons, ← hval]; exact hm.symm⟩
        · exact ⟨q, List.mem_cons_of_mem _ (List.mem_cons_self _ _),
            by rw [overlapWindow_cons, ← hval]; exact hm.symm⟩
      · exact ⟨p, List.mem_cons_of_mem _ (List.mem_cons_of_mem _ htl),
          by rw [overlapWindow_cons]; exact hval⟩
    · rcases h.2 with ⟨p, hp, hval⟩
      rcases List.mem_cons.mp hp with hhd | htl
      · subst hhd
        rcases min_choice r.2 q.2 with hm | hm
        · exact ⟨r, List.mem_cons_self _ _,
            by rw [overlapWindow_cons, ← hval]; exact hm.symm⟩
        · exact ⟨q, List.mem_cons_of_mem _ (List.mem_cons_self _ _),
            by rw [overlapWindow_cons, ← hval]; exact hm.symm⟩
      · exact ⟨p, List.mem_cons_of_mem _ (List.mem_cons_of_mem _ htl),
          by rw [overlapWindow_cons]; exact hval⟩

lemma copyMessages_eq_filter (wsNs weNs : Int) (msgs : List Record) :
    copyMessages wsNs weNs msgs
      = (msgs.filter (fun m => decide (wsNs ≤ m.t) && decide (m.t ≤ weNs))).map
          (fun m => WriteEvent.write m.topic m.data m.t) := by
  induction msgs with
  | nil => rfl
  | cons m ms ih =>
    by_cases h : wsNs ≤ m.t ∧ m.t ≤ weNs
    · rw [copyMessages, if_pos h]
      have hc : (decide (wsNs ≤ m.t) && decide (m.t ≤ weNs)) = true := by
        simp [h.1, h.2]
      simp [List.filter_cons, hc, ih]
    · rw [copyMessages, if_neg h]
      have hc : (decide (wsNs ≤ m.t) && decide (m.t ≤ weNs)) = false := by
        rcases not_and_or.mp h with h1 | h1 <;> simp [h1]
      simp [List.filter_cons, hc, ih]

lemma readerFold_cons (acc : Int × Int) (g : StorageFile)
    (gs : List StorageFile) :
    readerFold acc (g :: gs)
      = readerFold (min acc.1 g.startNs, max acc.2 (g.startNs + g.durationNs))
          gs := rfl

lemma readerFold_acc_bound (acc : Int × Int) (fs : List StorageFile) :
    (readerFold acc fs).1 ≤ acc.1 ∧ acc.2 ≤ (readerFold acc fs).2 := by
  induction fs generalizing acc with
  | nil => exact ⟨le_refl _, le_refl _⟩
  | cons g gs ih =>
    have h := ih (min acc.1 g.startNs, max acc.2 (g.startNs + g.durationNs))
    exact ⟨le_trans h.1 (min_le_left _ _), le_trans (le_max_left _ _) h.2⟩

lemma readerFold_mem_bound (acc : Int × Int) (fs : List StorageFile) :
    ∀ g ∈ fs, (readerFold acc fs).1 ≤ g.startNs ∧
      g.startNs + g.durationNs ≤ (readerFold acc fs).2 := by
  induction fs generalizing acc with
  | nil => intro g hg; cases hg
  | cons f fs ih =>
    intro g hg
    rcases List.mem_cons.mp hg with hf | hfs
    · subst hf
      have h := readerFold_acc_bound
        (min acc.1 g.startNs, max acc.2 (g.startNs + g.durationNs)) fs
      exact ⟨le_trans h.1 (min_le_right _ _), le_trans (le_max_right _ _) h.2⟩
    · exact ih (min acc.1 f.startNs, max acc.2 (f.startNs + f.durationNs)) g hfs

lemma readerFold_attained (acc : Int × Int) (fs : List StorageFile) :
    ((readerFold acc fs).1 = acc.1 ∨
      ∃ g ∈ fs, (readerFold acc fs).1 = g.startNs) ∧
    ((readerFold acc fs).2 = acc.2 ∨
      ∃ g ∈ fs, (readerFold acc fs).2 = g.startNs + g.durationNs) := by
  induction fs generalizing acc with
  | nil => exact ⟨Or.inl rfl, Or.inl rfl⟩
  | cons f fs ih =>
    have h := ih (min acc.1 f.startNs, max acc.2 (f.startNs + f.durationNs))
    rw [readerFold_cons]
    constructor
    · rcases h.1 with hacc | ⟨g, hg, hval⟩
      · rcases min_choice acc.1 f.startNs with hm | hm
        · exact Or.inl (by rw [hacc]; exact hm)
        · exact Or.inr ⟨f, List.mem_cons_self _ _, by rw [hacc]; exact hm⟩
      · exact Or.inr ⟨g, List.mem_cons_of_mem _ hg, hval⟩
    · rcases h.2 with hacc | ⟨g, hg, hval⟩
      · rcases max_choice acc.2 (f.startNs + f.durationNs) with hm | hm
        · exact Or.inl (by rw [hacc]; exact hm)
        · exact Or.inr ⟨f, List.mem_cons_self _ _, by rw [hacc]; exact hm⟩
      · exact Or.inr ⟨g, List.mem_cons_of_mem _ hg, hval⟩

lemma findBagFilesRecursively_neg (t : FsDir) (n : Int) (h : n < 0) :
    findBagFilesRecursively t n = [] := by
  rw [findBagFilesRecursively.eq_def, if_pos h]

lemma findBagFilesInSubdirs_zero (ts : List FsDir) :
    findBagFilesInSubdirs ts 0 = [] := by
  induction ts with
  | nil => rw [findBagFilesInSubdirs.eq_def]
  | cons c cs ih =>
    rw [findBagFilesInSubdirs.eq_def]
    show findBagFilesRecursively c ((0 : Int) - 1) ++ findBagFilesInSubdirs cs 0 = []
    rw [findBagFilesRecursively_neg c ((0 : Int) - 1) (by norm_num), ih]
    rfl

lemma findBagFilesRecursively_zero (t : FsDir) :
    findBagFilesRecursively t 0
      = if isBagDirectory t then [t.path] else [] := by
  rw [findBagFilesRecursively.eq_def, if_neg (by norm_num)]
  rcases t with ⟨p, meta, files, subs⟩
  by_cases h : isBagDirectory (FsDir.node p meta files subs)
  · rw [if_pos h, if_pos h]
  · rw [if_neg h, if_neg h]
    exact findBagFilesInSubdirs_zero subs

lemma findBagFilesInSubdirs_one (ts : List FsDir) :
    findBagFilesInSubdirs ts 1
      = ts.filterMap
          (fun c => if isBagDirectory c then some c.path else none) := by
  induction ts with
  | nil => rw [findBagFilesInSubdirs.eq_def]; rfl
  | cons c cs ih =>
    rw [findBagFilesInSubdirs.eq_def]
    show findBagFilesRecursively c ((1 : Int) - 1) ++ findBagFilesInSubdirs cs 1
      = _
    have h1 : (1 : Int) - 1 = 0 := by norm_num
    rw [h1, ih, findBagFilesRecursively_zero c, List.filterMap_cons]
    by_cases h : isBagDirectory c
    · rw [if_pos h, if_pos h]; rfl
    · rw [if_neg h, if_neg h]; rfl

lemma findBagFilesRecursively_one (t : FsDir) :
    findBagFilesRecursively t 1
      = if isBagDirectory t then [t.path]
        else t.subdirs.filterMap
          (fun c => if isBagDirectory c then some c.path else none) := by
  rw [findBagFilesRecursively.eq_def, if_neg (by norm_num)]
  rcases t with ⟨p, meta, files, subs⟩
  by_cases h : isBagDirectory (FsDir.node p meta files subs)
  · rw [if_pos h, if_pos h]
  · rw [if_neg h, if_neg h]
    exact findBagFilesInSubdirs_one subs

end Ros2bagTools

open Ros2bagTools

/-- C1: for every non-empty sequence of time ranges, the overlap window has
start equal to the maximum of the ranges' starts and end equal to the
minimum of the ranges' ends (the window start bounds every start from above
and is attained by some range, and symmetrically for the end); a
single-element sequence yields that range exactly.  `overlapWindow` is a
pure Lean function, so no I/O occurs. -/
theorem overlap_window_is_max_min (r : TimeRange) (rs : List TimeRange) :
    (∀ p ∈ r :: rs, p.1 ≤ (overlapWindow r rs).1) ∧
    (∃ p ∈ r :: rs, p.1 = (overlapWindow r rs).1) ∧
    (∀ p ∈ r :: rs, (overlapWindow r rs).2 ≤ p.2) ∧
    (∃ p ∈ r :: rs, p.2 = (overlapWindow r rs).2) ∧
    overlapWindow r [] = r := by
  refine ⟨?_, (overlapWindow_attained r rs).1, ?_,
    (overlapWindow_attained r rs).2, rfl⟩
  · intro p hp
    rcases List.mem_cons.mp hp with hhd | htl
    · subst hhd; exact (overlapWindow_fst_le p rs).1
    · exact (overlapWindow_mem_bound r rs p htl).1
  · intro p hp
    rcases List.mem_cons.mp hp with hhd | htl
    · subst hhd; exact (overlapWindow_fst_le p rs).2
    · exact (overlapWindow_mem_bound r rs p htl).2

/-- Witness for C1 at ranges [0,10] and [20,30]: the window is (20, 10). -/
theorem overlap_window_is_max_min_witness :
    overlapWindow ((0 : Int), (10 : Int)) [((20 : Int), (30 : Int))]
      = (20, 10) ∧
    (∀ p ∈ [((0 : Int), (10 : Int)), ((20 : Int), (30 : Int))],
      p.1 ≤ (overlapWindow ((0 : Int), (10 : Int))
        [((20 : Int), (30 : Int))]).1) ∧
    (∃ p ∈ [((0 : Int), (10 : Int)), ((20 : Int), (30 : Int))],
      p.2 = (overlapWindow ((0 : Int), (10 : Int))
        [((20 : Int), (30 : Int))]).2) :=
  ⟨by decide,
    (overlap_window_is_max_min ((0 : Int), (10 : Int))
      [((20 : Int), (30 : Int))]).1,
    (overlap_window_is_max_min ((0 : Int), (10 : Int))
      [((20 : Int), (30 : Int))]).2.2.2.1⟩

/-- C2: the filtered rewrite of `_crop_bag` creates every topic of the
source before writing any record (the event list is the topic creations
followed by the writes, so the schema exists even for topics that lose
every record), and a record is written iff
`window.start * 1e9 <= t <= window.end * 1e9` with both bounds inclusive,
in source stream order; for the synthetic bag with records at
0, 50, 100, 150, 200 ns and window [50, 150], exactly the records at
50, 100 and 150 survive and both topic descriptors are created. -/
theorem crop_filtered_rewrite_events :
    (∀ (wsNs weNs : Int) (topics : List String) (msgs : List Record),
      cropBagFilteredEvents wsNs weNs topics msgs
        = topics.map WriteEvent.createTopic ++
          (msgs.filter
            (fun m => decide (wsNs ≤ m.t) && decide (m.t ≤ weNs))).map
            (fun m => WriteEvent.write m.topic m.data m.t)) ∧
    cropBagFilteredEvents 50 150 ["t1", "t2"] cropExampleRecords
      = [WriteEvent.createTopic "t1", WriteEvent.createTopic "t2",
         WriteEvent.write "t1" 1 50, WriteEvent.write "t1" 2 100,
         WriteEvent.write "t1" 3 150] := by
  constructor
  · intro wsNs weNs topics msgs
    unfold cropBagFilteredEvents
    rw [copyMessages_eq_filter]
  · rfl

/-- C3: `_crop_bag` takes the full-directory-copy short-circuit whenever
the bag's own range equals the window exactly, and more generally exactly
when the bag's range lies within the window up to the ±10 ns tolerance
(`bag_start >= window.start - 10` and `bag_end <= window.end + 10`). -/
theorem crop_containment_short_circuit :
    ∀ wsNs weNs bsNs beNs : Int,
      cropBagAction wsNs weNs wsNs weNs = CropAction.fullCopy ∧
      (cropBagAction wsNs weNs bsNs beNs = CropAction.fullCopy ↔
        wsNs - 10 ≤ bsNs ∧ beNs ≤ weNs + 10) := by
  intro wsNs weNs bsNs beNs
  constructor
  · unfold cropBagAction
    rw [if_pos (⟨by omega, by omega⟩ :
      wsNs ≤ wsNs + 10 ∧ weNs - 10 ≤ weNs)]
  · unfold cropBagAction
    by_cases h : wsNs ≤ bsNs + 10 ∧ beNs - 10 ≤ weNs
    · rw [if_pos h]
      obtain ⟨h1, h2⟩ := h
      exact ⟨fun _ => ⟨by omega, by omega⟩, fun _ => rfl⟩
    · rw [if_neg h]
      constructor
      · intro hcontra; exact CropAction.noConfusion hcontra
      · intro hc
        obtain ⟨hc1, hc2⟩ := hc
        exact absurd ⟨by omega, by omega⟩ h

/-- C4 counterexample: for ranges [0,10] and [10,20] the window is the
degenerate (10, 10), yet `_crop_bags` refuses to crop (its gate tests
`overlap_start >= overlap_end`), contradicting the claim that a window
with start equal to end proceeds. -/
theorem crop_refusal_degenerate_counterexample :
    overlapWindow ((0 : Int), (10 : Int)) [((10 : Int), (20 : Int))]
      = (10, 10) ∧
    cropBagsGate ((0 : Int), (10 : Int)) [((10 : Int), (20 : Int))]
      = CropBatchGate.refuse := by decide

/-- C4 amended: cropping is refused (exit code 1 before the output
directory is created) exactly when `window.start >= window.end`; a
degenerate window with start equal to end is refused as well, and
otherwise cropping proceeds with the computed window. -/
theorem crop_refusal_iff_start_ge_end :
    ∀ (r : TimeRange) (rs : List TimeRange),
      (cropBagsGate r rs = CropBatchGate.refuse ↔
        (overlapWindow r rs).2 ≤ (overlapWindow r rs).1) ∧
      (cropBagsGate r rs = CropBatchGate.refuse ∨
        cropBagsGate r rs = CropBatchGate.proceed (overlapWindow r rs)) := by
  intro r rs
  simp only [cropBagsGate]
  by_cases h : (overlapWindow r rs).2 ≤ (overlapWindow r rs).1
  · rw [if_pos h]
    exact ⟨⟨fun _ => h, fun _ => rfl⟩, Or.inl rfl⟩
  · rw [if_neg h]
    exact ⟨⟨fun hc => CropBatchGate.noConfusion hc, fun hc => absurd hc h⟩,
      Or.inr rfl⟩

/-- C5 counterexample: a batch of two bags where the first is cropped and
the second fails returns exit code 0 from `_crop_bags`
(`return 0 if success_count > 0 else 1`), contradicting the claim that any
failed bag forces exit code 1. -/
theorem crop_batch_exit_partial_counterexample :
    cropBatchExitCode [true, false] = 0 ∧ false ∈ [true, false] := by decide

/-- C5 amended: the crop-mode batch exit code is 0 iff at least one bag
was cropped successfully; it is 1 iff no bag succeeded, so failed bags do
not affect the exit code as long as one bag succeeds. -/
theorem crop_batch_exit_zero_iff_any_success :
    ∀ results : List Bool,
      (cropBatchExitCode results = 0 ↔ true ∈ results) ∧
      (cropBatchExitCode results = 1 ↔ true ∉ results) := by
  intro results
  unfold cropBatchExitCode
  by_cases h : results.count true > 0
  · have hmem : true ∈ results := by
      by_contra hnot
      rw [List.count_eq_zero_of_not_mem hnot] at h
      exact lt_irrefl 0 h
    rw [if_pos h]
    exact ⟨⟨fun _ => hmem, fun _ => rfl⟩,
      ⟨fun hc => absurd hc.symm one_ne_zero, fun hc => absurd hmem hc⟩⟩
  · have hnot : true ∉ results := by
      intro hmem
      exact h (List.count_pos_iff.mpr hmem)
    rw [if_neg h]
    exact ⟨⟨fun hc => absurd hc one_ne_zero, fun hc => absurd hc hnot⟩,
      ⟨fun _ => hnot, fun _ => rfl⟩⟩

/-- C6 counterexample: a directory bag with an absent `metadata.yaml`
raises `ValueError` instead of falling back to the reader, and a parsed
descriptor missing `starting_time` resolves with the missing field
defaulting to 0 instead of falling back, contradicting the claim that
absence and structural incompleteness both trigger the reader fallback. -/
theorem resolver_fallback_counterexample :
    getStartEndTimestamps true MetadataState.absent
      = ResolveOutcome.failure ∧
    getStartEndTimestamps true MetadataState.absent
      ≠ ResolveOutcome.fromReader ∧
    getStartEndTimestamps true (MetadataState.parsed none (some 100))
      = ResolveOutcome.fromMetadata 0 100 ∧
    getStartEndTimestamps true (MetadataState.parsed none (some 100))
      ≠ ResolveOutcome.fromReader := by decide

/-- C6 amended: the reader fallback fires for a single-file bag with no
descriptor in its parent directory, and for any bag whose descriptor is
empty (`None`) or unparsable; a directory bag with an absent descriptor
fails immediately instead, and a descriptor that parses but misses
`starting_time` or `duration` is used with the missing fields defaulting
to 0 (`end = start + duration`), without any fallback. -/
theorem resolver_fallback_cases :
    ∀ (b : Bool) (s d : Option Int),
      getStartEndTimestamps false MetadataState.absent
        = ResolveOutcome.fromReader ∧
      getStartEndTimestamps true MetadataState.absent
        = ResolveOutcome.failure ∧
      getStartEndTimestamps b MetadataState.empty
        = ResolveOutcome.fromReader ∧
      getStartEndTimestamps b MetadataState.malformed
        = ResolveOutcome.fromReader ∧
      getStartEndTimestamps b (MetadataState.parsed s d)
        = ResolveOutcome.fromMetadata (s.getD 0) (s.getD 0 + d.getD 0) := by
  intro b s d
  exact ⟨rfl, rfl, rfl, rfl, rfl⟩

/-- C7: for a directory bag with no `.db3` file and at least one `.mcap`
file, `_get_timestamps_using_reader` opens every `.mcap` file and returns
start equal to the minimum of the per-file starts and end equal to the
maximum of the per-file ends (each per-file span is bounded by the result
and both extremes are attained by some file). -/
theorem reader_multifile_min_max
    (files : List StorageFile) (m : StorageFile) (ms : List StorageFile)
    (hdb3 : files.filter (fun f => hasSuffix f.name ".db3") = [])
    (hmcap : files.filter (fun f => hasSuffix f.name ".mcap") = m :: ms) :
    selectReaderFiles files = ReaderSelection.mcap (m :: ms) ∧
    (∀ g ∈ m :: ms,
      (readerTimeRangeFromFiles m ms).1 ≤ g.startNs ∧
      g.startNs + g.durationNs ≤ (readerTimeRangeFromFiles m ms).2) ∧
    (∃ g ∈ m :: ms, (readerTimeRangeFromFiles m ms).1 = g.startNs) ∧
    (∃ g ∈ m :: ms,
      (readerTimeRangeFromFiles m ms).2 = g.startNs + g.durationNs) := by
  refine ⟨?_, ?_, ?_, ?_⟩
  · simp only [selectReaderFiles]
    rw [hdb3, hmcap]
  · intro g hg
    rcases List.mem_cons.mp hg with hhd | htl
    · subst hhd
      unfold readerTimeRangeFromFiles
      exact ⟨(readerFold_acc_bound _ ms).1, (readerFold_acc_bound _ ms).2⟩
    · exact readerFold_mem_bound _ ms g htl
  · rcases (readerFold_attained
        (m.startNs, m.startNs + m.durationNs) ms).1 with hacc | ⟨g, hg, hv⟩
    · exact ⟨m, List.mem_cons_self _ _, hacc⟩
    · exact ⟨g, List.mem_cons_of_mem _ hg, hv⟩
  · rcases (readerFold_attained
        (m.startNs, m.startNs + m.durationNs) ms).2 with hacc | ⟨g, hg, hv⟩
    · exact ⟨m, List.mem_cons_self _ _, hacc⟩
    · exact ⟨g, List.mem_cons_of_mem _ hg, hv⟩

/-- Witness for C7 on a bag with two `.mcap` segments, spans [10,15] and
[2,5]: all files are opened and the resolved range is (2, 15). -/
theorem reader_multifile_min_max_witness :
    selectReaderFiles [mcapFileA, mcapFileB]
      = ReaderSelection.mcap [mcapFileA, mcapFileB] ∧
    readerTimeRangeFromFiles mcapFileA [mcapFileB] = (2, 15) ∧
    (∀ g ∈ [mcapFileA, mcapFileB],
      (readerTimeRangeFromFiles mcapFileA [mcapFileB]).1 ≤ g.startNs ∧
      g.startNs + g.durationNs
        ≤ (readerTimeRangeFromFiles mcapFileA [mcapFileB]).2) :=
  have h := reader_multifile_min_max [mcapFileA, mcapFileB]
    mcapFileA [mcapFileB] (by decide) (by decide)
  ⟨h.1, by decide, h.2.1⟩

/-- C8: discovery from a root with `n = 1` is depth-limited to one level:
if the root itself validates as a bag it is returned alone and recursion
stops; otherwise the result is exactly the valid immediate subdirectories
in listing order, and every discovered path is the root itself or an
immediate subdirectory, so a bag nested two or more levels below the root
is never discovered. -/
theorem discovery_depth_limited :
    ∀ t : FsDir,
      findBagFilesRecursively t 1
        = (if isBagDirectory t then [t.path]
           else t.subdirs.filterMap
             (fun c => if isBagDirectory c then some c.path else none)) ∧
      (∀ p ∈ findBagFilesRecursively t 1,
        p = t.path ∨ ∃ c ∈ t.subdirs, p = c.path) := by
  intro t
  refine ⟨findBagFilesRecursively_one t, ?_⟩
  intro p hp
  rw [findBagFilesRecursively_one t] at hp
  by_cases h : isBagDirectory t
  · rw [if_pos h] at hp
    exact Or.inl (List.mem_singleton.mp hp)
  · rw [if_neg h] at hp
    rcases List.mem_filterMap.mp hp with ⟨c, hc, hval⟩
    refine Or.inr ⟨c, hc, ?_⟩
    by_cases hb : isBagDirectory c
    · rw [if_pos hb] at hval
      exact (Option.some_inj.mp hval).symm
    · rw [if_neg hb] at hval
      cases hval

/-- Witness for C8 on a non-bag root holding the bag "root/a" directly and
the bag "root/s/b" hidden inside the non-bag subdirectory "root/s": only
"root/a" is discovered; the bag two levels down is not. -/
theorem discovery_depth_limited_witness :
    findBagFilesRecursively discoveryExampleRoot 1 = ["root/a"] ∧
    "root/s/b" ∉ findBagFilesRecursively discoveryExampleRoot 1 := by
  have h := (discovery_depth_limited discoveryExampleRoot).1
  have hval : (if isBagDirectory discoveryExampleRoot
        then [discoveryExampleRoot.path]
        else discoveryExampleRoot.subdirs.filterMap
          (fun c => if isBagDirectory c then some c.path else none))
      = ["root/a"] := by decide
  rw [h, hval]
  exact ⟨rfl, by decide⟩

/-- C9 counterexample: giving the same valid bag directory twice as input
makes `_get_all_bag_files` return its path twice, contradicting the claim
that the result is deduplicated. -/
theorem discovery_duplicate_counterexample :
    getAllBagFiles [duplicateExampleBag, duplicateExampleBag]
      = ["a", "a"] ∧
    ¬ (getAllBagFiles [duplicateExampleBag, duplicateExampleBag]).Nodup := by
  have hfind : findBagFilesRecursively duplicateExampleBag 1 = ["a"] := by
    rw [findBagFilesRecursively_one duplicateExampleBag]
    decide
  have hall : getAllBagFiles [duplicateExampleBag, duplicateExampleBag]
      = ["a", "a"] := by
    simp [getAllBagFiles, hfind]
  rw [hall]
  exact ⟨rfl, by decide⟩

/-- C9 amended: `_get_all_bag_files` returns the order-preserving
concatenation of the per-input discovery results, without any
deduplication, so the same bag path may appear several times when the
input paths overlap. -/
theorem discovery_concat_no_dedup :
    (∀ xs ys : List FsDir,
      getAllBagFiles (xs ++ ys)
        = getAllBagFiles xs ++ getAllBagFiles ys) ∧
    (∀ (t : FsDir) (ts : List FsDir),
      getAllBagFiles (t :: ts)
        = findBagFilesRecursively t 1 ++ getAllBagFiles ts) := by
  constructor
  · intro xs ys
    induction xs with
    | nil => rfl
    | cons t ts ih =>
      simp [getAllBagFiles, ih, List.append_assoc]
  · intro t ts
    rfl

/-- C10: in report-only mode with an empty computed overlap
(max start > min end), `_find_overlap` still returns exit code 0 and the
overlap summary it prints is the pair of `datetime.now()` readings taken
at that moment rather than the computed window; when the two readings
coincide the reported window has zero length, and two runs whose clock
readings differ print different windows for the same inputs. -/
theorem report_empty_overlap_wallclock
    (r : TimeRange) (rs : List TimeRange) (now1 now2 : Int)
    (h : (overlapWindow r rs).1 > (overlapWindow r rs).2) :
    findOverlapReport r rs now1 now2
      = { window := (now1, now2), exitCode := 0 } ∧
    (findOverlapReport r rs now1 now2).exitCode = 0 ∧
    (now1 = now2 →
      (findOverlapReport r rs now1 now2).window.2
        - (findOverlapReport r rs now1 now2).window.1 = 0) ∧
    (∀ m1 m2 : Int, m1 ≠ now1 →
      (findOverlapReport r rs m1 m2).window
        ≠ (findOverlapReport r rs now1 now2).window) := by
  have heq : findOverlapReport r rs now1 now2
      = { window := (now1, now2), exitCode := 0 } := by
    simp only [findOverlapReport]
    rw [if_pos h]
  refine ⟨heq, by rw [heq], ?_, ?_⟩
  · intro hnow
    rw [heq]
    simp [hnow]
  · intro m1 m2 hm
    have heq2 : findOverlapReport r rs m1 m2
        = { window := (m1, m2), exitCode := 0 } := by
      simp only [findOverlapReport]
      rw [if_pos h]
    rw [heq, heq2]
    intro hcontra
    exact hm (congrArg Prod.fst hcontra)

/-- Witness for C10 at ranges [0,10] and [20,30] (window (20,10), empty)
with both clock readings 42: the run reports window (42, 42), zero length,
with exit code 0. -/
theorem report_empty_overlap_wallclock_witness :
    findOverlapReport ((0 : Int), (10 : Int)) [((20 : Int), (30 : Int))]
        42 42
      = { window := (42, 42), exitCode := 0 } ∧
    (findOverlapReport ((0 : Int), (10 : Int)) [((20 : Int), (30 : Int))]
        42 42).window.2
      - (findOverlapReport ((0 : Int), (10 : Int)) [((20 : Int), (30 : Int))]
        42 42).window.1 = 0 :=
  have h := report_empty_overlap_wallclock ((0 : Int), (10 : Int))
    [((20 : Int), (30 : Int))] 42 42 (by decide)
  ⟨h.1, h.2.2.1 rfl⟩
